import Mathlib

/-!
Shallow embedding of the Vocly game server (`serverVocly.py`) and proofs
about its specification.  Pure Python functions become Lean functions;
the mutable global state (`ALL_CLIENTS`, `game_rooms`, `active_timers`)
becomes an explicit `ServerState` record threaded through the handlers;
randomness (`random.choice`, `generate_room_code`) and wall-clock time
(`time.time()`) become explicit parameters of the handlers; messages
written to client sockets become a returned list of `(recipient, event)`
pairs.
-/

set_option maxHeartbeats 1000000

namespace Vocly

/-! ### Game constants (serverVocly.py lines 26-38) -/

def WORD_BANK : List String := [
  "REACT", "FLASK", "PIANO", "TIGER", "STORM", "BEACH", "TOWER", "SMOKE",
  "PLANT", "CLOUD", "MAGIC", "QUEST", "BRAVE", "CRISP", "FROST", "GLOBE",
  "DREAM", "FIGHT", "GRACE", "HEART", "JOKER", "KNIFE", "LUNAR", "MOUNT",
  "NIGHT", "OCEAN", "PRIDE", "QUICK", "RIVER", "SHINE", "TRUST", "UNITY",
  "VALOR", "WHALE", "YOUTH", "ZEBRA", "APPLE", "BREAD", "CHAIR", "DANCE",
  "EAGLE", "FLAME", "GRAPE", "HOUSE", "IMAGE", "JUICE", "LEMON", "MOUSE",
  "NURSE", "PARTY"]

def MAX_GUESSES : Nat := 6

def WORD_LENGTH : Nat := 5

def GAME_DURATION : Nat := 180

/-! ### Basic types.  Client ids are opaque; we model them as naturals.
Wall-clock instants and elapsed seconds are modelled as integers. -/

abbrev ClientId := Nat

abbrev RoomCode := List Char

/-- Feedback mark for one guess position (`'correct' | 'present' | 'absent'`). -/
inductive Mark where
  | correct
  | present
  | absent
deriving DecidableEq

/-- A player's final result for a round (`'won' | 'lost'`; `none` in the room
maps means the Python value `None`). -/
inductive PResult where
  | won
  | lost
deriving DecidableEq

/-- Room lifecycle states (`'waiting' | 'ready' | 'playing' | 'finished'`). -/
inductive RoomState where
  | waiting
  | ready
  | playing
  | finished
deriving DecidableEq

/-! ### Python string helpers: `.upper()` and `.strip()` on ASCII. -/

/-- ASCII model of Python `str.upper` applied to one character. -/
def pyCharUpper (c : Char) : Char :=
  match c with
  | 'a' => 'A' | 'b' => 'B' | 'c' => 'C' | 'd' => 'D' | 'e' => 'E'
  | 'f' => 'F' | 'g' => 'G' | 'h' => 'H' | 'i' => 'I' | 'j' => 'J'
  | 'k' => 'K' | 'l' => 'L' | 'm' => 'M' | 'n' => 'N' | 'o' => 'O'
  | 'p' => 'P' | 'q' => 'Q' | 'r' => 'R' | 's' => 'S' | 't' => 'T'
  | 'u' => 'U' | 'v' => 'V' | 'w' => 'W' | 'x' => 'X' | 'y' => 'Y'
  | 'z' => 'Z'
  | c => c

/-- Python `str.upper` on a word modelled as a character list. -/
def pyUpper (s : List Char) : List Char := s.map pyCharUpper

/-- The whitespace characters removed by Python `str.strip` (ASCII part). -/
def pyIsSpace (c : Char) : Bool :=
  decide (c = ' ' ∨ c = '\t' ∨ c = '\n' ∨ c = '\r' ∨ c = '\x0b' ∨ c = '\x0c')

/-- Python `str.strip`: remove leading and trailing whitespace. -/
def pyStrip (s : List Char) : List Char :=
  (s.dropWhile pyIsSpace).rdropWhile pyIsSpace

/-! ### Guess evaluator (`check_wordle_guess`, lines 66-91).
The Python builds `secret_counts` as a letter-to-count dict; we model it as a
function `Char → Int`.  Pass 1 walks the positions marking exact matches
`correct` (all other positions keep the initial `absent`) and decrements the
matched letter's count; pass 2 walks again, upgrading a not-`correct`
position to `present` when its letter occurs in `secret` with positive
remaining count. -/

/-- `secret_counts` after the initial counting loop (lines 72-75). -/
def initCounts (secret : List Char) : Char → Int :=
  fun c => (secret.count c : Int)

/-- `secret_counts[ch] -= 1`. -/
def decr (cnt : Char → Int) (ch : Char) : Char → Int :=
  fun d => if d = ch then cnt d - 1 else cnt d

/-- Pass 1 (lines 77-81): positions where `guess[i] == secret[i]` get
`correct` and consume one occurrence; other positions keep `absent`.
Returns the pass-1 feedback together with the remaining counts. -/
def pass1 : List Char → List Char → (Char → Int) → List Mark × (Char → Int)
  | g :: gs, s :: ss, cnt =>
    if g = s then
      let res := pass1 gs ss (decr cnt g)
      (Mark.correct :: res.1, res.2)
    else
      let res := pass1 gs ss cnt
      (Mark.absent :: res.1, res.2)
  | _, _, cnt => ([], cnt)

/-- Pass 2 (lines 83-89): skip `correct` positions; mark `present` and
decrement when the guessed letter occurs in `secret` with positive remaining
count; otherwise leave `absent`. -/
def pass2 (secret : List Char) : List Char → List Mark → (Char → Int) → List Mark
  | g :: gs, m :: ms, cnt =>
    if m = Mark.correct then Mark.correct :: pass2 secret gs ms cnt
    else if g ∈ secret ∧ cnt g > 0 then Mark.present :: pass2 secret gs ms (decr cnt g)
    else Mark.absent :: pass2 secret gs ms cnt
  | _, _, _ => []

/-- `check_wordle_guess(guess, secret)` (lines 66-91). -/
def check_wordle_guess (guess secret : List Char) : List Mark :=
  let p1 := pass1 guess secret (initCounts secret)
  pass2 secret guess p1.1 p1.2

/-- Number of positions whose guessed letter is `c` and which carry mark `m`. -/
def countMarks (c : Char) (m : Mark) (l : List (Char × Mark)) : Nat :=
  (l.filter (fun p => decide (p.1 = c ∧ p.2 = m))).length

/-- Number of positions whose guessed letter is `c` and which are marked
correct-or-present (i.e. not `absent`). -/
def markedCount (c : Char) (guess : List Char) (fb : List Mark) : Nat :=
  ((guess.zip fb).filter (fun p => decide (p.1 = c ∧ p.2 ≠ Mark.absent))).length

/-! ### Dict and registry helpers.
Python dicts keyed by client id (`guesses`, `finish_times`, `results`,
`ALL_CLIENTS`) are modelled as functions into `Option`; the room registry
`game_rooms`, which the server also iterates in insertion order
(`get_player_room`), is modelled as an insertion-ordered association list. -/

/-- Dict assignment `f[k] = v` for function-modelled dicts. -/
def fupd {α β : Type} [DecidableEq α] (f : α → β) (k : α) (v : β) : α → β :=
  fun x => if x = k then v else f x

/-- Dict lookup on an association list (first entry wins, as in a Python
dict, which never holds duplicate keys). -/
def dlookup {κ α : Type} [DecidableEq κ] : List (κ × α) → κ → Option α
  | [], _ => none
  | e :: es, k => if e.1 = k then some e.2 else dlookup es k

/-- Dict assignment `d[k] = v` on an association list: replace in place when
the key exists, otherwise append (Python dicts keep insertion order). -/
def dset {κ α : Type} [DecidableEq κ] (d : List (κ × α)) (k : κ) (v : α) :
    List (κ × α) :=
  if d.any (fun e => decide (e.1 = k)) then
    d.map (fun e => if e.1 = k then (k, v) else e)
  else d ++ [(k, v)]

/-- Dict deletion `del d[k]` on an association list. -/
def ddel {κ α : Type} [DecidableEq κ] (d : List (κ × α)) (k : κ) : List (κ × α) :=
  d.filter (fun e => decide (e.1 ≠ k))

/-! ### Rooms, server state, events. -/

/-- One game room (the dict built in `handle_create_room`, lines 248-256).
The per-player dicts are functions `ClientId → Option _`: `none` means the
key is absent, `some v` that the key maps to Python value `v` (so
`some none` is an entry whose value is Python `None`). -/
structure Room where
  players : List ClientId
  word : List Char
  state : RoomState
  start_time : Option Int
  guesses : ClientId → Option (List (List Char × List Mark))
  finish_times : ClientId → Option (Option Int)
  results : ClientId → Option (Option PResult)

/-- Human-readable outcome line built in `check_game_end` (lines 192-204),
one constructor per `result = f"..."` branch, carrying exactly the data
interpolated into the string. -/
inductive GameResult where
  | draw_both_lost (word : List Char)
  | p1_wins_default (t1 : Int)
  | p2_wins_default (t2 : Int)
  | p1_wins_time (t1 t2 : Int)
  | p2_wins_time (t2 t1 : Int)
  | draw_equal (t1 : Int)
deriving DecidableEq

/-- Tags for the `error` messages the handlers can send (the Indonesian
message strings, by position of occurrence in the source). -/
inductive ErrorTag where
  | room_not_found
  | room_full
  | game_already_started
  | cannot_start
  | game_not_active
  | wrong_length
  | cannot_rematch
deriving DecidableEq

/-- Server-to-client message types, with the payload fields the claims
inspect. -/
inductive SrvEvent where
  | room_created (code : RoomCode)
  | room_ready
  | game_started (word_length max_guesses duration : Nat)
  | guess_result (guess : List Char) (feedback : List Mark)
      (guess_count : Nat) (is_correct : Bool)
  | opponent_guessed (guess_count : Nat)
  | player_finished (result : PResult) (time : Int)
  | game_over (result : GameResult) (word : List Char)
  | rematch_ready
  | opponent_disconnected
  | error (tag : ErrorTag)
deriving DecidableEq

/-- The server's global mutable state: `ALL_CLIENTS` (a registered client's
stored room-code back-reference; reader/writer handles are not modelled),
`game_rooms`, and `active_timers` (presence of an uncancelled timer task). -/
structure ServerState where
  clients : ClientId → Option (Option RoomCode)
  rooms : List (RoomCode × Room)
  timers : RoomCode → Bool

/-- `get_player_room` (lines 93-98): first room, in registry order, whose
player list contains the client. -/
def get_player_room (rooms : List (RoomCode × Room)) (cid : ClientId) :
    Option (RoomCode × Room) :=
  rooms.find? (fun e => decide (cid ∈ e.2.players))

/-- `stop_timer` (lines 100-106): cancel and drop the room's timer entry. -/
def stop_timer (timers : RoomCode → Bool) (code : RoomCode) : RoomCode → Bool :=
  fupd timers code false

/-- `broadcast_to_room` (lines 148-159): look the room up again, then send
to every member that is still registered, minus the excluded client. -/
def broadcast_to_room (st : ServerState) (code : RoomCode) (ev : SrvEvent)
    (exclude : Option ClientId) : List (ClientId × SrvEvent) :=
  match dlookup st.rooms code with
  | none => []
  | some room =>
    room.players.filterMap (fun pid =>
      if some pid = exclude then none
      else if (st.clients pid).isSome then some (pid, ev) else none)

/-- `all_finished` inside `check_game_end` (lines 171-174). -/
def all_finished (room : Room) : Bool :=
  room.players.all (fun pid => ((room.finish_times pid).join).isSome)

/-- The winner rule of `check_game_end` (lines 191-204), as the `if` chain
building the `result` string.  `r1`, `r2` are the stored results (Python
`None` is `none`), `t1`, `t2` the stored finish times. -/
def determine_winner (word : List Char) (r1 r2 : Option PResult) (t1 t2 : Int) :
    GameResult :=
  if r1 = some PResult.lost ∧ r2 = some PResult.lost then .draw_both_lost word
  else if r1 = some PResult.won ∧ r2 = some PResult.lost then .p1_wins_default t1
  else if r1 = some PResult.lost ∧ r2 = some PResult.won then .p2_wins_default t2
  else if t1 < t2 then .p1_wins_time t1 t2
  else if t2 < t1 then .p2_wins_time t2 t1
  else .draw_equal t1

/-- `check_game_end` (lines 165-212).  Mutating the shared room object in
place becomes writing the updated room back at the same key.  On the
all-finished path the source sets `state = 'finished'` and stops the timer
before indexing `players[0]`/`players[1]`; a room with fewer than two
players would raise `IndexError` there (after those mutations), which we
model as producing no broadcast. -/
def check_game_end (st : ServerState) (room_code : RoomCode) :
    ServerState × List (ClientId × SrvEvent) :=
  match dlookup st.rooms room_code with
  | none => (st, [])
  | some room =>
    if room.state ≠ RoomState.playing then (st, [])
    else if all_finished room = false then (st, [])
    else
      let room2 := { room with state := RoomState.finished }
      let st2 : ServerState :=
        { st with rooms := dset st.rooms room_code room2,
                  timers := stop_timer st.timers room_code }
      match room2.players with
      | p1 :: p2 :: _ =>
        let t1 := ((room2.finish_times p1).join).getD 0
        let t2 := ((room2.finish_times p2).join).getD 0
        let r1 := (room2.results p1).join
        let r2 := (room2.results p2).join
        let result := determine_winner room2.word r1 r2 t1 t2
        (st2, broadcast_to_room st2 room_code (.game_over result room2.word) none)
      | _ => (st2, [])

/-- One iteration of the timeout loop of `timer_game` (lines 227-230): a
player without a finish time gets `finish_time = time.time() - start_time`
(i.e. `now` minus the room's start time) and `result = 'lost'`. -/
def timeout_player (now : Int) (r : Room) (pid : ClientId) : Room :=
  if (r.finish_times pid).join = none then
    { r with
        finish_times := fupd r.finish_times pid
          (some (some (now - r.start_time.getD 0))),
        results := fupd r.results pid (some (some PResult.lost)) }
  else r

/-- The expiry body of `timer_game` (lines 214-238), i.e. what runs after
`asyncio.sleep(GAME_DURATION)` completes uncancelled; `now` is the value of
`time.time()` at that moment.  Re-checks that the room still exists and is
still `playing`; then gives every unfinished player a `lost` result with
elapsed finish time, drops the timer entry, and runs `check_game_end`. -/
def timer_game (st : ServerState) (room_code : RoomCode) (now : Int) :
    ServerState × List (ClientId × SrvEvent) :=
  match dlookup st.rooms room_code with
  | none => (st, [])
  | some room =>
    if room.state ≠ RoomState.playing then (st, [])
    else
      let room2 := room.players.foldl (timeout_player now) room
      let st2 : ServerState :=
        { st with rooms := dset st.rooms room_code room2,
                  timers := fupd st.timers room_code false }
      check_game_end st2 room_code

/-- `handle_create_room` (lines 244-265).  The generated room code and the
`random.choice(WORD_BANK)` word are passed in as parameters (randomness as
an oracle).  The source reads the client's existing `ALL_CLIENTS` entry
only to preserve its reader/writer handles, which we do not model. -/
def handle_create_room (st : ServerState) (cid : ClientId) (code : RoomCode)
    (word : String) : ServerState × List (ClientId × SrvEvent) :=
  let room : Room :=
    { players := [cid],
      word := pyUpper word.toList,
      state := RoomState.waiting,
      start_time := none,
      guesses := fun p => if p = cid then some [] else none,
      finish_times := fun p => if p = cid then some none else none,
      results := fun p => if p = cid then some none else none }
  ({ clients := fupd st.clients cid (some (some code)),
     rooms := dset st.rooms code room,
     timers := st.timers },
   [(cid, .room_created code)])

/-- `handle_join_room` (lines 267-301). -/
def handle_join_room (st : ServerState) (cid : ClientId) (raw_code : List Char) :
    ServerState × List (ClientId × SrvEvent) :=
  let room_code := pyStrip (pyUpper raw_code)
  match dlookup st.rooms room_code with
  | none => (st, [(cid, .error .room_not_found)])
  | some room =>
    if 2 ≤ room.players.length then (st, [(cid, .error .room_full)])
    else if room.state ≠ RoomState.waiting then
      (st, [(cid, .error .game_already_started)])
    else
      let room2 : Room :=
        { room with
            players := room.players ++ [cid],
            guesses := fupd room.guesses cid (some []),
            finish_times := fupd room.finish_times cid (some none),
            results := fupd room.results cid (some none),
            state := RoomState.ready }
      let st2 : ServerState :=
        { clients := fupd st.clients cid (some (some room_code)),
          rooms := dset st.rooms room_code room2,
          timers := st.timers }
      (st2, broadcast_to_room st2 room_code .room_ready none)

/-- `handle_start_game` (lines 303-336); `now` is `time.time()` at start. -/
def handle_start_game (st : ServerState) (cid : ClientId) (now : Int) :
    ServerState × List (ClientId × SrvEvent) :=
  match get_player_room st.rooms cid with
  | none => (st, [(cid, .error .room_not_found)])
  | some (room_code, room) =>
    if room.state ≠ RoomState.ready then (st, [(cid, .error .cannot_start)])
    else
      let room2 : Room :=
        { room with
            state := RoomState.playing,
            start_time := some now,
            finish_times := fun p =>
              if p ∈ room.players then some none else room.finish_times p,
            results := fun p =>
              if p ∈ room.players then some none else room.results p,
            guesses := fun p =>
              if p ∈ room.players then some [] else room.guesses p }
      let st2 : ServerState :=
        { st with rooms := dset st.rooms room_code room2,
                  timers := fupd st.timers room_code true }
      (st2, broadcast_to_room st2 room_code
        (.game_started WORD_LENGTH MAX_GUESSES GAME_DURATION) none)

/-- `handle_make_guess` (lines 338-403); `now` is `time.time()` at the
moment a terminal outcome is recorded. -/
def handle_make_guess (st : ServerState) (cid : ClientId) (raw_guess : List Char)
    (now : Int) : ServerState × List (ClientId × SrvEvent) :=
  let guess := pyStrip (pyUpper raw_guess)
  match get_player_room st.rooms cid with
  | none => (st, [(cid, .error .game_not_active)])
  | some (room_code, room) =>
    if room.state ≠ RoomState.playing then (st, [(cid, .error .game_not_active)])
    else if (room.finish_times cid).join ≠ none then (st, [])
    else if guess.length ≠ WORD_LENGTH then (st, [(cid, .error .wrong_length)])
    else
      let secret := room.word
      let feedback := check_wordle_guess guess secret
      let newHistory := ((room.guesses cid).getD []) ++ [(guess, feedback)]
      let room1 : Room := { room with guesses := fupd room.guesses cid (some newHistory) }
      let guess_count := ((room1.guesses cid).getD []).length
      let is_correct := decide (guess = secret)
      let st1 : ServerState := { st with rooms := dset st.rooms room_code room1 }
      let evs := (cid, .guess_result guess feedback guess_count is_correct)
        :: broadcast_to_room st1 room_code (.opponent_guessed guess_count) (some cid)
      if is_correct then
        let elapsed := now - room1.start_time.getD 0
        let room2 : Room :=
          { room1 with
              finish_times := fupd room1.finish_times cid (some (some elapsed)),
              results := fupd room1.results cid (some (some PResult.won)) }
        let st2 : ServerState := { st1 with rooms := dset st1.rooms room_code room2 }
        let after := check_game_end st2 room_code
        (after.1, evs ++ [(cid, .player_finished .won elapsed)] ++ after.2)
      else if MAX_GUESSES ≤ guess_count then
        let elapsed := now - room1.start_time.getD 0
        let room2 : Room :=
          { room1 with
              finish_times := fupd room1.finish_times cid (some (some elapsed)),
              results := fupd room1.results cid (some (some PResult.lost)) }
        let st2 : ServerState := { st1 with rooms := dset st1.rooms room_code room2 }
        let after := check_game_end st2 room_code
        (after.1, evs ++ [(cid, .player_finished .lost elapsed)] ++ after.2)
      else (st1, evs)

/-- `handle_rematch` (lines 405-432); the new `random.choice(WORD_BANK)`
word is an explicit parameter. -/
def handle_rematch (st : ServerState) (cid : ClientId) (new_word : String) :
    ServerState × List (ClientId × SrvEvent) :=
  match get_player_room st.rooms cid with
  | none => (st, [(cid, .error .cannot_rematch)])
  | some (room_code, room) =>
    if room.state ≠ RoomState.finished then (st, [(cid, .error .cannot_rematch)])
    else
      let timers := stop_timer st.timers room_code
      let players := room.players
      let room2 : Room :=
        { players := players,
          word := pyUpper new_word.toList,
          state := RoomState.ready,
          start_time := none,
          guesses := fun p => if p ∈ players then some [] else none,
          finish_times := fun p => if p ∈ players then some none else none,
          results := fun p => if p ∈ players then some none else none }
      let st2 : ServerState :=
        { clients := st.clients,
          rooms := dset st.rooms room_code room2,
          timers := timers }
      (st2, broadcast_to_room st2 room_code .rematch_ready none)

/-- `cleanup_client` (lines 439-464): on stream closure, stop the room's
timer, notify the opponent when the room was `ready` or `playing`, delete
the room unconditionally, and deregister the session. -/
def cleanup_client (st : ServerState) (cid : ClientId) :
    ServerState × List (ClientId × SrvEvent) :=
  match get_player_room st.rooms cid with
  | some (room_code, room) =>
    let timers := stop_timer st.timers room_code
    let evs :=
      if room.state = RoomState.ready ∨ room.state = RoomState.playing then
        broadcast_to_room st room_code .opponent_disconnected (some cid)
      else []
    ({ clients := fupd st.clients cid none,
       rooms := ddel st.rooms room_code,
       timers := timers }, evs)
  | none => ({ st with clients := fupd st.clients cid none }, [])

/-- The `server_info` dict sent in the `welcome` message to every new
connection (`handle_client`, lines 477-485). -/
def welcome_server_info : List (String × Nat) :=
  [("word_length", WORD_LENGTH),
   ("max_guesses", MAX_GUESSES),
   ("game_duration", GAME_DURATION)]

/-! ### The room invariant (claim C8) -/

/-- The data-model invariant: a room has 1 or 2 players, the per-player
dicts hold an entry for every player in `players`, and the secret word has
the configured length. -/
def RoomInv (room : Room) : Prop :=
  (room.players.length = 1 ∨ room.players.length = 2) ∧
  (∀ pid ∈ room.players,
    (room.guesses pid).isSome ∧ (room.finish_times pid).isSome ∧
      (room.results pid).isSome) ∧
  room.word.length = WORD_LENGTH

/-- Every room in the registry satisfies `RoomInv`. -/
def AllRoomsInv (rooms : List (RoomCode × Room)) : Prop :=
  ∀ e ∈ rooms, RoomInv e.2

/-! ### Concrete states used in the witnesses -/

/-- A two-player playing room in which only player 1 has finished. -/
def exHalfDoneRoom : Room :=
  { players := [1, 2],
    word := "REACT".toList,
    state := RoomState.playing,
    start_time := some 0,
    guesses := fun _ => some [],
    finish_times := fun p => if p = 1 then some (some 5) else some none,
    results := fun p => if p = 1 then some (some PResult.won) else some none }

/-- A server state holding only `exHalfDoneRoom`. -/
def exHalfDoneState : ServerState :=
  { clients := fun _ => none,
    rooms := [("ABCDE".toList, exHalfDoneRoom)],
    timers := fun _ => true }

/-- A two-player playing room used for the C4 witness: player 1 finished,
player 2 still playing when the timer fires. -/
def exTimerRoom : Room :=
  { players := [1, 2],
    word := "REACT".toList,
    state := RoomState.playing,
    start_time := some 0,
    guesses := fun _ => some [],
    finish_times := fun p => if p = 1 then some (some 50) else some none,
    results := fun p => if p = 1 then some (some PResult.won) else some none }

/-- A server state holding only `exTimerRoom` with its timer running. -/
def exTimerState : ServerState :=
  { clients := fun _ => none,
    rooms := [("ABCDE".toList, exTimerRoom)],
    timers := fun c => c = "ABCDE".toList }

/-- A server state with two connected clients sharing the playing room
`exHalfDoneRoom`. -/
def exConnState : ServerState :=
  { clients := fun c => if c = 1 ∨ c = 2 then some (some "ABCDE".toList) else none,
    rooms := [("ABCDE".toList, exHalfDoneRoom)],
    timers := fun _ => true }

/-! ### Lemmas about the guess evaluator (claim C1) -/

theorem countMarks_nil (c : Char) (m : Mark) : countMarks c m [] = 0 := rfl

theorem countMarks_cons (c : Char) (m : Mark) (p : Char × Mark)
    (l : List (Char × Mark)) :
    countMarks c m (p :: l) =
      countMarks c m l + (if p.1 = c ∧ p.2 = m then 1 else 0) := by
  by_cases h : p.1 = c ∧ p.2 = m
  · simp [countMarks, List.filter_cons, h, Nat.add_comm]
  · simp [countMarks, List.filter_cons, h]

theorem markedCount_cons (c g : Char) (gs : List Char) (m : Mark) (ms : List Mark) :
    markedCount c (g :: gs) (m :: ms) =
      markedCount c gs ms + (if g = c ∧ m ≠ Mark.absent then 1 else 0) := by
  by_cases h : g = c ∧ m ≠ Mark.absent
  · simp [markedCount, List.zip_cons_cons, List.filter_cons, h, Nat.add_comm]
  · simp [markedCount, List.zip_cons_cons, List.filter_cons, h]

theorem markedCount_split (c : Char) (gs : List Char) :
    ∀ ms : List Mark,
      markedCount c gs ms =
        countMarks c Mark.correct (gs.zip ms) +
          countMarks c Mark.present (gs.zip ms) := by
  induction gs with
  | nil => intro ms; simp [markedCount, countMarks]
  | cons g gs ih =>
    intro ms
    cases ms with
    | nil => simp [markedCount, countMarks]
    | cons m ms =>
      rw [markedCount_cons, List.zip_cons_cons, countMarks_cons, countMarks_cons,
        ih ms]
      cases m <;> by_cases hg : g = c <;> simp [hg] <;> omega

theorem pass1_cons_eq (g s : Char) (gs ss : List Char) (cnt : Char → Int) :
    pass1 (g :: gs) (s :: ss) cnt =
      if g = s then
        (Mark.correct :: (pass1 gs ss (decr cnt g)).1, (pass1 gs ss (decr cnt g)).2)
      else (Mark.absent :: (pass1 gs ss cnt).1, (pass1 gs ss cnt).2) := by
  by_cases h : g = s <;> simp [pass1, h]

theorem pass1_counts (c : Char) (gs : List Char) :
    ∀ (ss : List Char) (cnt : Char → Int),
      (pass1 gs ss cnt).2 c =
        cnt c - countMarks c Mark.correct (gs.zip (pass1 gs ss cnt).1) := by
  induction gs with
  | nil => intro ss cnt; cases ss <;> simp [pass1, countMarks]
  | cons g gs ih =>
    intro ss cnt
    cases ss with
    | nil => simp [pass1, countMarks]
    | cons s ss =>
      rw [pass1_cons_eq]
      by_cases h : g = s
      · rw [if_pos h]
        have ihh := ih ss (decr cnt g)
        simp only [List.zip_cons_cons, countMarks_cons, ihh]
        by_cases hc : g = c
        · subst hc
          simp [decr]
          omega
        · simp [decr, Ne.symm hc, hc]
      · rw [if_neg h]
        have ihh := ih ss cnt
        simp only [List.zip_cons_cons, countMarks_cons, ihh]
        simp

theorem pass1_correct_le (c : Char) (gs : List Char) :
    ∀ (ss : List Char) (cnt : Char → Int),
      countMarks c Mark.correct (gs.zip (pass1 gs ss cnt).1) ≤ ss.count c := by
  induction gs with
  | nil => intro ss cnt; cases ss <;> simp [pass1, countMarks]
  | cons g gs ih =>
    intro ss cnt
    cases ss with
    | nil => simp [pass1, countMarks]
    | cons s ss =>
      rw [pass1_cons_eq]
      by_cases h : g = s
      · subst h
        rw [if_pos rfl]
        have ihh := ih ss (decr cnt g)
        simp only [List.zip_cons_cons, countMarks_cons, List.count_cons]
        by_cases hc : g = c
        · subst hc
          simp
          omega
        · simp [hc, Ne.symm hc]
          omega
      · rw [if_neg h]
        have ihh := ih ss cnt
        simp only [List.zip_cons_cons, countMarks_cons, List.count_cons]
        simp
        split <;> omega

theorem decr_self (cnt : Char → Int) (ch : Char) : decr cnt ch ch = cnt ch - 1 := by
  simp [decr]

theorem decr_other (cnt : Char → Int) (ch d : Char) (h : d ≠ ch) :
    decr cnt ch d = cnt d := by
  simp [decr, h]

theorem pass2_cons_eq (secret : List Char) (g : Char) (gs : List Char) (m : Mark)
    (ms : List Mark) (cnt : Char → Int) :
    pass2 secret (g :: gs) (m :: ms) cnt =
      if m = Mark.correct then Mark.correct :: pass2 secret gs ms cnt
      else if g ∈ secret ∧ cnt g > 0 then
        Mark.present :: pass2 secret gs ms (decr cnt g)
      else Mark.absent :: pass2 secret gs ms cnt := by
  by_cases h1 : m = Mark.correct
  · simp [pass2, h1]
  · by_cases h2 : g ∈ secret ∧ cnt g > 0 <;> simp [pass2, h1, h2]

theorem pass2_present_le (secret : List Char) (c : Char) (gs : List Char) :
    ∀ (ms : List Mark) (cnt : Char → Int), 0 ≤ cnt c →
      (countMarks c Mark.present (gs.zip (pass2 secret gs ms cnt)) : Int) ≤ cnt c := by
  induction gs with
  | nil => intro ms cnt h; simp [pass2, countMarks]; omega
  | cons g gs ih =>
    intro ms cnt h
    cases ms with
    | nil => simp [pass2, countMarks]; omega
    | cons m ms =>
      rw [pass2_cons_eq]
      by_cases hm : m = Mark.correct
      · rw [if_pos hm]
        have ihh := ih ms cnt h
        simp only [List.zip_cons_cons, countMarks_cons]
        simp
        omega
      · rw [if_neg hm]
        by_cases hp : g ∈ secret ∧ cnt g > 0
        · rw [if_pos hp]
          by_cases hc : g = c
          · subst hc
            have hpos : 0 ≤ decr cnt g g := by
              rw [decr_self]
              omega
            have ihh := ih ms (decr cnt g) hpos
            rw [decr_self] at ihh
            simp only [List.zip_cons_cons, countMarks_cons]
            simp
            omega
          · have hpos : 0 ≤ decr cnt g c := by
              rw [decr_other cnt g c (Ne.symm hc)]
              omega
            have ihh := ih ms (decr cnt g) hpos
            rw [decr_other cnt g c (Ne.symm hc)] at ihh
            simp only [List.zip_cons_cons, countMarks_cons]
            simp [hc]
            omega
        · rw [if_neg hp]
          have ihh := ih ms cnt h
          simp only [List.zip_cons_cons, countMarks_cons]
          simp
          omega

theorem pass2_correct_eq (secret : List Char) (c : Char) (gs : List Char) :
    ∀ (ms : List Mark) (cnt : Char → Int),
      countMarks c Mark.correct (gs.zip (pass2 secret gs ms cnt)) =
        countMarks c Mark.correct (gs.zip ms) := by
  induction gs with
  | nil => intro ms cnt; simp [pass2, countMarks]
  | cons g gs ih =>
    intro ms cnt
    cases ms with
    | nil => simp [pass2, countMarks]
    | cons m ms =>
      rw [pass2_cons_eq]
      by_cases hm : m = Mark.correct
      · rw [if_pos hm, hm]
        simp only [List.zip_cons_cons, countMarks_cons, ih]
      · rw [if_neg hm]
        by_cases hp : g ∈ secret ∧ cnt g > 0
        · rw [if_pos hp]
          simp only [List.zip_cons_cons, countMarks_cons, ih]
          simp [hm]
        · rw [if_neg hp]
          simp only [List.zip_cons_cons, countMarks_cons, ih]
          simp [hm]

/-- The multiset-awareness bound: the evaluator never marks more positions
correct-or-present for a letter than that letter's count in the secret. -/
theorem check_wordle_guess_count_bound (guess secret : List Char) (c : Char) :
    markedCount c guess (check_wordle_guess guess secret) ≤ secret.count c := by
  unfold check_wordle_guess
  have h1 := pass1_counts c guess secret (initCounts secret)
  have h2 := pass1_correct_le c guess secret (initCounts secret)
  have h5 := pass2_correct_eq secret c guess (pass1 guess secret (initCounts secret)).1
    (pass1 guess secret (initCounts secret)).2
  have h0 := markedCount_split c guess
    (pass2 secret guess (pass1 guess secret (initCounts secret)).1
      (pass1 guess secret (initCounts secret)).2)
  have hpos : 0 ≤ (pass1 guess secret (initCounts secret)).2 c := by
    rw [h1]
    simp only [initCounts]
    omega
  have h4 := pass2_present_le secret c guess
    (pass1 guess secret (initCounts secret)).1
    (pass1 guess secret (initCounts secret)).2 hpos
  rw [h1] at h4
  simp only [initCounts] at h4
  rw [h0, h5]
  omega

/-- Claim C1 (corrected): for every guess and secret of equal length, the
evaluator never marks more positions correct-or-present for a letter than
that letter's occurrence count in the secret.  For secret APPLE and guess
PAPER, two P positions are marked correct-or-present -- matching the two
occurrences of P in APPLE -- and exactly one of them is marked correct. -/
theorem C1_evaluate_multiset_bound :
    (∀ (guess secret : List Char), guess.length = secret.length → ∀ c : Char,
        markedCount c guess (check_wordle_guess guess secret) ≤ secret.count c)
    ∧ markedCount 'P' "PAPER".toList
        (check_wordle_guess "PAPER".toList "APPLE".toList) = 2
    ∧ "APPLE".toList.count 'P' = 2
    ∧ countMarks 'P' Mark.correct ("PAPER".toList.zip
        (check_wordle_guess "PAPER".toList "APPLE".toList)) = 1 :=
  ⟨fun guess secret _ c => check_wordle_guess_count_bound guess secret c,
   by decide, by decide, by decide⟩

/-- Claim C1 counterexample: for secret APPLE and guess PAPER the evaluator
marks two P positions correct-or-present (APPLE contains two P letters), not
exactly one as the claim states. -/
theorem C1_counterexample :
    markedCount 'P' "PAPER".toList
        (check_wordle_guess "PAPER".toList "APPLE".toList) = 2 ∧
      ¬ markedCount 'P' "PAPER".toList
        (check_wordle_guess "PAPER".toList "APPLE".toList) = 1 := by
  decide

/-- Concrete instantiation of the universally quantified bound of C1. -/
theorem C1_witness :
    markedCount 'P' "PAPER".toList (check_wordle_guess "PAPER".toList "APPLE".toList)
      ≤ "APPLE".toList.count 'P' :=
  C1_evaluate_multiset_bound.1 "PAPER".toList "APPLE".toList (by decide) 'P'

/-! ### Lemmas about the dict helpers -/

theorem dlookup_none_of_not_any {κ α : Type} [DecidableEq κ] (d : List (κ × α))
    (k : κ) (h : d.any (fun e => decide (e.1 = k)) = false) : dlookup d k = none := by
  induction d with
  | nil => rfl
  | cons e es ih =>
    rw [List.any_cons, Bool.or_eq_false_iff] at h
    simp only [dlookup, if_neg (of_decide_eq_false h.1)]
    exact ih h.2

theorem dlookup_append {κ α : Type} [DecidableEq κ] (d₁ d₂ : List (κ × α)) (k : κ)
    (h : dlookup d₁ k = none) : dlookup (d₁ ++ d₂) k = dlookup d₂ k := by
  induction d₁ with
  | nil => simp
  | cons e es ih =>
    simp only [dlookup] at h
    by_cases he : e.1 = k
    · rw [if_pos he] at h
      exact absurd h (by simp)
    · rw [if_neg he] at h
      simp only [List.cons_append, dlookup, if_neg he]
      exact ih h

theorem dlookup_map_set {κ α : Type} [DecidableEq κ] (d : List (κ × α)) (k : κ)
    (v : α) (h : d.any (fun e => decide (e.1 = k)) = true) :
    dlookup (d.map (fun e => if e.1 = k then (k, v) else e)) k = some v := by
  induction d with
  | nil => simp at h
  | cons e es ih =>
    by_cases he : e.1 = k
    · simp [List.map_cons, if_pos he, dlookup]
    · rw [List.any_cons] at h
      rcases (Bool.or_eq_true _ _).mp h with h1 | h2
      · exact absurd (of_decide_eq_true h1) he
      · simp only [List.map_cons, if_neg he, dlookup, if_neg he]
        exact ih h2

theorem dlookup_dset_self {κ α : Type} [DecidableEq κ] (d : List (κ × α))
    (k : κ) (v : α) : dlookup (dset d k v) k = some v := by
  unfold dset
  by_cases h : d.any (fun e => decide (e.1 = k)) = true
  · rw [if_pos h]
    exact dlookup_map_set d k v h
  · rw [if_neg h]
    have hf : d.any (fun e => decide (e.1 = k)) = false := by
      cases hx : d.any (fun e => decide (e.1 = k))
      · rfl
      · exact absurd hx h
    rw [dlookup_append d [(k, v)] k (dlookup_none_of_not_any d k hf)]
    simp [dlookup]

theorem mem_dset {κ α : Type} [DecidableEq κ] {d : List (κ × α)} {k : κ} {v : α}
    {e : κ × α} (h : e ∈ dset d k v) : e ∈ d ∨ e = (k, v) := by
  unfold dset at h
  by_cases hany : d.any (fun e => decide (e.1 = k)) = true
  · rw [if_pos hany] at h
    obtain ⟨e', he', heq⟩ := List.mem_map.mp h
    by_cases he : e'.1 = k
    · rw [if_pos he] at heq
      exact Or.inr heq.symm
    · rw [if_neg he] at heq
      exact Or.inl (heq ▸ he')
  · rw [if_neg hany] at h
    rcases List.mem_append.mp h with h1 | h2
    · exact Or.inl h1
    · exact Or.inr (List.mem_singleton.mp h2)

theorem dlookup_ddel_self {κ α : Type} [DecidableEq κ] (d : List (κ × α)) (k : κ) :
    dlookup (ddel d k) k = none := by
  induction d with
  | nil => rfl
  | cons e es ih =>
    by_cases he : e.1 = k
    · have h1 : ddel (e :: es) k = ddel es k := by
        simp [ddel, List.filter_cons, he]
      rw [h1]
      exact ih
    · have h1 : ddel (e :: es) k = e :: ddel es k := by
        simp [ddel, List.filter_cons, he]
      rw [h1]
      simp only [dlookup, if_neg he]
      exact ih

theorem dlookup_mem {κ α : Type} [DecidableEq κ] {d : List (κ × α)} {k : κ} {v : α}
    (h : dlookup d k = some v) : (k, v) ∈ d := by
  induction d with
  | nil => simp [dlookup] at h
  | cons e es ih =>
    simp only [dlookup] at h
    by_cases he : e.1 = k
    · rw [if_pos he] at h
      have : e = (k, v) := by
        cases e
        simp_all
      simp [this]
    · rw [if_neg he] at h
      exact List.mem_cons_of_mem e (ih h)

theorem get_player_room_mem {rooms : List (RoomCode × Room)} {cid : ClientId}
    {code : RoomCode} {room : Room}
    (h : get_player_room rooms cid = some (code, room)) : (code, room) ∈ rooms :=
  List.mem_of_find?_eq_some h

theorem get_player_room_players {rooms : List (RoomCode × Room)} {cid : ClientId}
    {code : RoomCode} {room : Room}
    (h : get_player_room rooms cid = some (code, room)) : cid ∈ room.players := by
  have := List.find?_some h
  exact of_decide_eq_true this

/-! ### Claim C9: room-code collisions silently replace the existing room -/

/-- Claim C9: `handle_create_room` never consults the registry for the
generated code: whatever the registry held before, afterwards the code maps
to a fresh one-player waiting room, so a colliding room is silently
replaced. -/
theorem C9_create_room_overwrites (st : ServerState) (cid : ClientId)
    (code : RoomCode) (word : String) :
    dlookup (handle_create_room st cid code word).1.rooms code =
      some { players := [cid],
             word := pyUpper word.toList,
             state := RoomState.waiting,
             start_time := none,
             guesses := fun p => if p = cid then some [] else none,
             finish_times := fun p => if p = cid then some none else none,
             results := fun p => if p = cid then some none else none } := by
  simp only [handle_create_room]
  exact dlookup_dset_self st.rooms code _

/-! ### Claim C6: the welcome message and the configuration constants -/

/-- Claim C6 counterexample: the word-bank size (50) is not among the values
of the `server_info` dict sent in the welcome message; only word length, max
guesses and round duration are. -/
theorem C6_counterexample :
    WORD_BANK.length ∉ welcome_server_info.map Prod.snd := by
  decide

/-- Claim C6 (corrected): the welcome message exposes word length (5), max
guesses (6) and round duration in seconds (180), but not the word bank size
(50). -/
theorem C6_welcome_constants :
    welcome_server_info =
      [("word_length", 5), ("max_guesses", 6), ("game_duration", 180)] ∧
    WORD_BANK.length = 50 ∧
    WORD_BANK.length ∉ welcome_server_info.map Prod.snd := by
  refine ⟨by decide, by decide, by decide⟩

/-! ### Claim C3: the winner rule -/

/-- Claim C3: with both results and finish times recorded, the winner rule
of `check_game_end` gives: both lost, a draw revealing the secret; exactly
one won, that player wins regardless of the times; both won, the strictly
lower finish time wins and equal times draw. -/
theorem C3_winner_rule (word : List Char) (t1 t2 : Int) :
    (determine_winner word (some PResult.lost) (some PResult.lost) t1 t2 =
      GameResult.draw_both_lost word)
    ∧ (determine_winner word (some PResult.won) (some PResult.lost) t1 t2 =
      GameResult.p1_wins_default t1)
    ∧ (determine_winner word (some PResult.lost) (some PResult.won) t1 t2 =
      GameResult.p2_wins_default t2)
    ∧ (t1 < t2 → determine_winner word (some PResult.won) (some PResult.won) t1 t2 =
      GameResult.p1_wins_time t1 t2)
    ∧ (t2 < t1 → determine_winner word (some PResult.won) (some PResult.won) t1 t2 =
      GameResult.p2_wins_time t2 t1)
    ∧ (t1 = t2 → determine_winner word (some PResult.won) (some PResult.won) t1 t2 =
      GameResult.draw_equal t1) := by
  refine ⟨by simp [determine_winner], by simp [determine_winner],
    by simp [determine_winner], ?_, ?_, ?_⟩
  · intro h
    simp [determine_winner, h]
  · intro h
    have h2 : ¬ t1 < t2 := by omega
    simp [determine_winner, h, h2]
  · intro h
    subst h
    simp [determine_winner]

/-- Concrete instantiation of the both-won branch of C3. -/
theorem C3_witness :
    determine_winner [] (some PResult.won) (some PResult.won) 1 2 =
      GameResult.p1_wins_time 1 2 :=
  (C3_winner_rule [] 1 2).2.2.2.1 (by decide)

/-! ### Claim C5: stale timer expiry is a no-op -/

/-- Claim C5: the timer's expiry action re-checks that the room exists and
is still `playing`; on a deleted or non-playing (e.g. already finished) room
it changes no state at all and emits no message. -/
theorem C5_timer_expiry_stale_noop (st : ServerState) (code : RoomCode)
    (now : Int)
    (h : dlookup st.rooms code = none ∨
      ∃ room, dlookup st.rooms code = some room ∧ room.state ≠ RoomState.playing) :
    timer_game st code now = (st, []) := by
  rcases h with h | ⟨room, h, hs⟩
  · simp [timer_game, h]
  · simp [timer_game, h, hs]

/-! ### Claim C2: round-end determination -/

/-- When every player is finished, `check_game_end` writes back the room
with state `finished` (and a stopped timer), whatever the player list
looks like. -/
theorem check_game_end_state_when_finished (st : ServerState) (code : RoomCode)
    (room : Room) (hlook : dlookup st.rooms code = some room)
    (hplay : room.state = RoomState.playing)
    (hf : all_finished room = true) :
    (check_game_end st code).1 =
      { st with
          rooms := dset st.rooms code { room with state := RoomState.finished },
          timers := stop_timer st.timers code } := by
  rcases hp : room.players with _ | ⟨p1, tl⟩
  · simp [check_game_end, hlook, hplay, hf, hp]
  · rcases tl with _ | ⟨p2, rest⟩
    · simp [check_game_end, hlook, hplay, hf, hp]
    · simp [check_game_end, hlook, hplay, hf, hp]

/-- When some player is not finished, `check_game_end` changes nothing and
sends nothing. -/
theorem check_game_end_noop_when_unfinished (st : ServerState) (code : RoomCode)
    (room : Room) (hlook : dlookup st.rooms code = some room)
    (hplay : room.state = RoomState.playing)
    (hf : all_finished room = false) :
    check_game_end st code = (st, []) := by
  simp [check_game_end, hlook, hplay, hf]

/-- Claim C2: for a room in `playing` state, the round-end check moves it to
`finished` exactly when every player in its players list has a non-absent
finish time; otherwise it leaves the entire server state unchanged and emits
no message at all (in particular no `game_over`). -/
theorem C2_round_end_iff (st : ServerState) (code : RoomCode) (room : Room)
    (hlook : dlookup st.rooms code = some room)
    (hplay : room.state = RoomState.playing) :
    ((dlookup (check_game_end st code).1.rooms code).map Room.state =
        some RoomState.finished ↔ all_finished room = true)
    ∧ (all_finished room = false → check_game_end st code = (st, [])) := by
  constructor
  · constructor
    · intro h
      cases hx : all_finished room
      · exfalso
        rw [check_game_end_noop_when_unfinished st code room hlook hplay hx] at h
        rw [hlook] at h
        simp at h
        rw [hplay] at h
        exact absurd h (by decide)
      · rfl
    · intro hf
      rw [check_game_end_state_when_finished st code room hlook hplay hf]
      simp [dlookup_dset_self]
  · intro hf
    exact check_game_end_noop_when_unfinished st code room hlook hplay hf

/-- Concrete instantiation of C2: a two-player room where only player 1 has
a finish time; the round-end check is a no-op. -/
theorem C2_witness :
    check_game_end exHalfDoneState "ABCDE".toList = (exHalfDoneState, []) :=
  (C2_round_end_iff exHalfDoneState "ABCDE".toList exHalfDoneRoom rfl rfl).2 rfl

/-- Concrete instantiation of C5 on a room already finished. -/
theorem C5_witness :
    timer_game
      { clients := fun _ => none,
        rooms := [("ABCDE".toList,
          { players := [1, 2],
            word := "REACT".toList,
            state := RoomState.finished,
            start_time := none,
            guesses := fun _ => none,
            finish_times := fun _ => none,
            results := fun _ => none })],
        timers := fun _ => false }
      "ABCDE".toList 999 =
    ({ clients := fun _ => none,
       rooms := [("ABCDE".toList,
         { players := [1, 2],
           word := "REACT".toList,
           state := RoomState.finished,
           start_time := none,
           guesses := fun _ => none,
           finish_times := fun _ => none,
           results := fun _ => none })],
       timers := fun _ => false }, []) :=
  C5_timer_expiry_stale_noop _ _ _
    (Or.inr ⟨_, rfl, by decide⟩)

/-! ### Claim C4: natural timer expiry -/

theorem timeout_player_fields (now : Int) (r : Room) (pid : ClientId) :
    (timeout_player now r pid).players = r.players ∧
    (timeout_player now r pid).word = r.word ∧
    (timeout_player now r pid).state = r.state ∧
    (timeout_player now r pid).start_time = r.start_time ∧
    (∀ q, (timeout_player now r pid).guesses q = r.guesses q) := by
  unfold timeout_player
  split <;> simp

theorem timeout_player_other (now : Int) (r : Room) (pid q : ClientId)
    (hq : q ≠ pid) :
    (timeout_player now r pid).finish_times q = r.finish_times q ∧
    (timeout_player now r pid).results q = r.results q := by
  unfold timeout_player
  split <;> simp [fupd, hq]

theorem foldl_timeout_fields (now : Int) (l : List ClientId) :
    ∀ r : Room,
      (l.foldl (timeout_player now) r).players = r.players ∧
      (l.foldl (timeout_player now) r).word = r.word ∧
      (l.foldl (timeout_player now) r).state = r.state ∧
      (l.foldl (timeout_player now) r).start_time = r.start_time ∧
      (∀ q, (l.foldl (timeout_player now) r).guesses q = r.guesses q) := by
  induction l with
  | nil => intro r; simp
  | cons p tl ih =>
    intro r
    have h1 := timeout_player_fields now r p
    have h2 := ih (timeout_player now r p)
    simp only [List.foldl_cons]
    refine ⟨?_, ?_, ?_, ?_, ?_⟩
    · rw [h2.1, h1.1]
    · rw [h2.2.1, h1.2.1]
    · rw [h2.2.2.1, h1.2.2.1]
    · rw [h2.2.2.2.1, h1.2.2.2.1]
    · intro q
      rw [h2.2.2.2.2 q, h1.2.2.2.2 q]

/-- A player already carrying a finish time is untouched by the whole
timeout loop. -/
theorem foldl_timeout_done (now : Int) (l : List ClientId) :
    ∀ (r : Room) (q : ClientId), (r.finish_times q).join ≠ none →
      (l.foldl (timeout_player now) r).finish_times q = r.finish_times q ∧
      (l.foldl (timeout_player now) r).results q = r.results q := by
  induction l with
  | nil => intro r q _; simp
  | cons p tl ih =>
    intro r q hq
    simp only [List.foldl_cons]
    by_cases hpq : q = p
    · subst hpq
      have hstep : timeout_player now r q = r := by
        unfold timeout_player
        rw [if_neg hq]
      rw [hstep]
      exact ih r q hq
    · have hother := timeout_player_other now r p q hpq
      have := ih (timeout_player now r p) q (by rw [hother.1]; exact hq)
      rw [this.1, this.2, hother.1, hother.2]
      exact ⟨rfl, rfl⟩

/-- A player without a finish time when the timer fires ends up with
elapsed time `now - start` and result `lost`. -/
theorem foldl_timeout_unfinished (now : Int) (l : List ClientId) :
    ∀ (r : Room) (q : ClientId), q ∈ l → (r.finish_times q).join = none →
      (l.foldl (timeout_player now) r).finish_times q =
        some (some (now - r.start_time.getD 0)) ∧
      (l.foldl (timeout_player now) r).results q = some (some PResult.lost) := by
  induction l with
  | nil => intro r q hq; simp at hq
  | cons p tl ih =>
    intro r q hq hnone
    simp only [List.foldl_cons]
    by_cases hpq : q = p
    · subst hpq
      have hstep : timeout_player now r q =
          { r with
              finish_times := fupd r.finish_times q
                (some (some (now - r.start_time.getD 0))),
              results := fupd r.results q (some (some PResult.lost)) } := by
        unfold timeout_player
        rw [if_pos hnone]
      rw [hstep]
      have hdone := foldl_timeout_done now tl
        { r with
            finish_times := fupd r.finish_times q
              (some (some (now - r.start_time.getD 0))),
            results := fupd r.results q (some (some PResult.lost)) } q
        (by simp [fupd])
      rw [hdone.1, hdone.2]
      simp [fupd]
    · have hq' : q ∈ tl := by
        rcases List.mem_cons.mp hq with h | h
        · exact absurd h hpq
        · exact h
      have hother := timeout_player_other now r p q hpq
      have hstart := (timeout_player_fields now r p).2.2.2.1
      have := ih (timeout_player now r p) q hq' (by rw [hother.1]; exact hnone)
      rw [this.1, this.2, hstart]
      exact ⟨rfl, rfl⟩

/-- After the timeout loop every player in the list is finished. -/
theorem foldl_timeout_all_done (now : Int) (l : List ClientId) (r : Room)
    (q : ClientId) (hq : q ∈ l) :
    ((l.foldl (timeout_player now) r).finish_times q).join ≠ none := by
  by_cases hnone : (r.finish_times q).join = none
  · rw [(foldl_timeout_unfinished now l r q hq hnone).1]
    simp
  · rw [(foldl_timeout_done now l r q hnone).1]
    exact hnone

/-- Claim C4: when the timer expires naturally (at exactly the configured
duration after the recorded start time) on a room still `playing`, every
player without a finish time gets `result = lost` and
`finish_time = GAME_DURATION` (the full round duration), and the round-end
determination then runs, leaving the room `finished`. -/
theorem C4_timer_expiry_fills_losses (st : ServerState) (code : RoomCode)
    (room : Room) (now start : Int)
    (hlook : dlookup st.rooms code = some room)
    (hplay : room.state = RoomState.playing)
    (hstart : room.start_time = some start)
    (hnow : now - start = (GAME_DURATION : Int)) :
    ∀ pid ∈ room.players, (room.finish_times pid).join = none →
      ∃ room2, dlookup (timer_game st code now).1.rooms code = some room2 ∧
        room2.finish_times pid = some (some (GAME_DURATION : Int)) ∧
        room2.results pid = some (some PResult.lost) ∧
        room2.state = RoomState.finished := by
  intro pid hpid hnone
  have hroomA :
      timer_game st code now =
        check_game_end
          { st with
              rooms := dset st.rooms code (room.players.foldl (timeout_player now) room),
              timers := fupd st.timers code false }
          code := by
    simp [timer_game, hlook, hplay]
  set roomA := room.players.foldl (timeout_player now) room with hA
  set stA : ServerState :=
    { st with rooms := dset st.rooms code roomA,
              timers := fupd st.timers code false } with hstA
  have hlookA : dlookup stA.rooms code = some roomA := dlookup_dset_self _ _ _
  have hplayA : roomA.state = RoomState.playing := by
    rw [hA, (foldl_timeout_fields now room.players room).2.2.1, hplay]
  have hfinA : all_finished roomA = true := by
    unfold all_finished
    rw [List.all_eq_true]
    intro q hqmem
    have hqmem' : q ∈ room.players := by
      rw [hA, (foldl_timeout_fields now room.players room).1] at hqmem
      exact hqmem
    have := foldl_timeout_all_done now room.players room q hqmem'
    rw [hA]
    simpa [Option.isSome_iff_ne_none] using this
  have hend := check_game_end_state_when_finished stA code roomA hlookA hplayA hfinA
  rw [hroomA, hend]
  refine ⟨{ roomA with state := RoomState.finished }, ?_, ?_, ?_, rfl⟩
  · simp [dlookup_dset_self]
  · have := (foldl_timeout_unfinished now room.players room pid hpid hnone).1
    rw [hA]
    simp only [this, hstart]
    rw [show now - (some start).getD 0 = (GAME_DURATION : Int) by
      simp [Option.getD]; omega]
  · have := (foldl_timeout_unfinished now room.players room pid hpid hnone).2
    rw [hA]
    simp only [this]

/-- Concrete instantiation of C4 at `now = 180`, player 2 unfinished. -/
theorem C4_witness :
    ∃ room2,
      dlookup (timer_game exTimerState "ABCDE".toList 180).1.rooms "ABCDE".toList =
        some room2 ∧
      room2.finish_times 2 = some (some (GAME_DURATION : Int)) ∧
      room2.results 2 = some (some PResult.lost) ∧
      room2.state = RoomState.finished :=
  C4_timer_expiry_fills_losses exTimerState "ABCDE".toList exTimerRoom 180 0
    rfl rfl rfl (by decide) 2 (by decide) rfl

/-! ### Claim C7: disconnect cleanup -/

theorem broadcast_mem (st : ServerState) (code : RoomCode) (ev : SrvEvent)
    (exclude : Option ClientId) (room : Room) (q : ClientId)
    (hlook : dlookup st.rooms code = some room) (hq : q ∈ room.players)
    (hex : some q ≠ exclude) (hcl : (st.clients q).isSome) :
    (q, ev) ∈ broadcast_to_room st code ev exclude := by
  unfold broadcast_to_room
  rw [hlook]
  apply List.mem_filterMap.mpr
  refine ⟨q, hq, ?_⟩
  rw [if_neg hex, if_pos hcl]

/-- Claim C7: when a client in a room disconnects, the room is deleted from
the registry whatever its state was, its timer is cancelled, the session is
deregistered, and a still-connected other player receives
`opponent_disconnected` exactly when the room state was `ready` or
`playing`. -/
theorem C7_cleanup_deletes_room (st : ServerState) (cid : ClientId)
    (code : RoomCode) (room : Room) (other : ClientId)
    (hfind : get_player_room st.rooms cid = some (code, room))
    (hlook : dlookup st.rooms code = some room)
    (hother : other ∈ room.players) (hne : other ≠ cid)
    (hcl : (st.clients other).isSome) :
    dlookup (cleanup_client st cid).1.rooms code = none ∧
    (cleanup_client st cid).1.timers code = false ∧
    (cleanup_client st cid).1.clients cid = none ∧
    ((other, SrvEvent.opponent_disconnected) ∈ (cleanup_client st cid).2 ↔
      (room.state = RoomState.ready ∨ room.state = RoomState.playing)) := by
  have hred : cleanup_client st cid =
      ({ clients := fupd st.clients cid none,
         rooms := ddel st.rooms code,
         timers := stop_timer st.timers code },
       if room.state = RoomState.ready ∨ room.state = RoomState.playing then
         broadcast_to_room st code SrvEvent.opponent_disconnected (some cid)
       else []) := by
    simp [cleanup_client, hfind]
  rw [hred]
  refine ⟨dlookup_ddel_self st.rooms code, by simp [stop_timer, fupd],
    by simp [fupd], ?_⟩
  by_cases hs : room.state = RoomState.ready ∨ room.state = RoomState.playing
  · rw [if_pos hs]
    constructor
    · intro _
      exact hs
    · intro _
      exact broadcast_mem st code SrvEvent.opponent_disconnected (some cid) room
        other hlook hother (by simpa using hne) hcl
  · rw [if_neg hs]
    simp [hs]

/-- Concrete instantiation of C7: client 1 disconnects from the playing
room; the room is gone, the timer stopped, the session dropped, and client 2
is notified. -/
theorem C7_witness :
    dlookup (cleanup_client exConnState 1).1.rooms "ABCDE".toList = none ∧
    (cleanup_client exConnState 1).1.timers "ABCDE".toList = false ∧
    (cleanup_client exConnState 1).1.clients 1 = none ∧
    ((2, SrvEvent.opponent_disconnected) ∈ (cleanup_client exConnState 1).2 ↔
      (exHalfDoneRoom.state = RoomState.ready ∨
        exHalfDoneRoom.state = RoomState.playing)) :=
  C7_cleanup_deletes_room exConnState 1 "ABCDE".toList exHalfDoneRoom 2
    rfl rfl (by decide) (by decide) rfl

/-! ### Claim C10: upper/strip normalization is idempotent, so the handlers
treat a raw argument and its normalized form identically -/

theorem pyCharUpper_idem (c : Char) : pyCharUpper (pyCharUpper c) = pyCharUpper c := by
  by_cases h_a : c = 'a'
  · subst h_a; rfl
  by_cases h_b : c = 'b'
  · subst h_b; rfl
  by_cases h_c : c = 'c'
  · subst h_c; rfl
  by_cases h_d : c = 'd'
  · subst h_d; rfl
  by_cases h_e : c = 'e'
  · subst h_e; rfl
  by_cases h_f : c = 'f'
  · subst h_f; rfl
  by_cases h_g : c = 'g'
  · subst h_g; rfl
  by_cases h_h : c = 'h'
  · subst h_h; rfl
  by_cases h_i : c = 'i'
  · subst h_i; rfl
  by_cases h_j : c = 'j'
  · subst h_j; rfl
  by_cases h_k : c = 'k'
  · subst h_k; rfl
  by_cases h_l : c = 'l'
  · subst h_l; rfl
  by_cases h_m : c = 'm'
  · subst h_m; rfl
  by_cases h_n : c = 'n'
  · subst h_n; rfl
  by_cases h_o : c = 'o'
  · subst h_o; rfl
  by_cases h_p : c = 'p'
  · subst h_p; rfl
  by_cases h_q : c = 'q'
  · subst h_q; rfl
  by_cases h_r : c = 'r'
  · subst h_r; rfl
  by_cases h_s : c = 's'
  · subst h_s; rfl
  by_cases h_t : c = 't'
  · subst h_t; rfl
  by_cases h_u : c = 'u'
  · subst h_u; rfl
  by_cases h_v : c = 'v'
  · subst h_v; rfl
  by_cases h_w : c = 'w'
  · subst h_w; rfl
  by_cases h_x : c = 'x'
  · subst h_x; rfl
  by_cases h_y : c = 'y'
  · subst h_y; rfl
  by_cases h_z : c = 'z'
  · subst h_z; rfl
  have hself : pyCharUpper c = c := by
    unfold pyCharUpper
    split <;> simp_all
  rw [hself]
  exact hself

theorem map_fixed {f : Char → Char} {l : List Char} (h : ∀ a ∈ l, f a = a) :
    l.map f = l := by
  induction l with
  | nil => rfl
  | cons a tl ih =>
    rw [List.map_cons, h a (by simp), ih (fun b hb => h b (by simp [hb]))]

theorem dropWhile_fix_of_prefix {p : Char → Bool} {u v : List Char}
    (hu : u.dropWhile p = u) (hv : v <+: u) : v.dropWhile p = v := by
  cases v with
  | nil => rfl
  | cons a v' =>
    obtain ⟨s, hs⟩ := hv
    subst hs
    have h0 : 0 < ((a :: v') ++ s).length := by simp
    have hne := List.dropWhile_eq_self_iff.mp hu h0
    simp only [List.cons_append, List.get] at hne
    exact List.dropWhile_cons_of_neg hne

theorem pyStrip_idem (t : List Char) : pyStrip (pyStrip t) = pyStrip t := by
  unfold pyStrip
  have h1 : (t.dropWhile pyIsSpace).dropWhile pyIsSpace = t.dropWhile pyIsSpace :=
    List.dropWhile_idempotent _ _
  have h2 : ((t.dropWhile pyIsSpace).rdropWhile pyIsSpace).dropWhile pyIsSpace =
      (t.dropWhile pyIsSpace).rdropWhile pyIsSpace :=
    dropWhile_fix_of_prefix h1 (List.rdropWhile_prefix _ _)
  rw [h2]
  exact List.rdropWhile_idempotent _ _

theorem mem_pyStrip {c : Char} {t : List Char} (h : c ∈ pyStrip t) : c ∈ t := by
  unfold pyStrip at h
  have h1 : c ∈ t.dropWhile pyIsSpace :=
    List.IsPrefix.subset (List.rdropWhile_prefix _ _) h
  exact (List.dropWhile_sublist pyIsSpace).subset h1

theorem pyUpper_fix_of_upper (s : List Char) :
    pyUpper (pyStrip (pyUpper s)) = pyStrip (pyUpper s) := by
  apply map_fixed
  intro a ha
  have ha' : a ∈ pyUpper s := mem_pyStrip ha
  obtain ⟨b, _, hb⟩ := List.mem_map.mp ha'
  rw [← hb]
  exact pyCharUpper_idem b

theorem normalize_idem (s : List Char) :
    pyStrip (pyUpper (pyStrip (pyUpper s))) = pyStrip (pyUpper s) := by
  rw [pyUpper_fix_of_upper, pyStrip_idem]

/-- Claim C10: `handle_join_room` and `handle_make_guess` normalize their
string argument with `.upper().strip()` before any lookup or comparison, so
each behaves identically on the raw input and on its uppercased, stripped
form. -/
theorem C10_handlers_normalize (st : ServerState) (cid : ClientId)
    (raw : List Char) :
    (handle_join_room st cid raw =
      handle_join_room st cid (pyStrip (pyUpper raw)))
    ∧ (∀ now : Int, handle_make_guess st cid raw now =
      handle_make_guess st cid (pyStrip (pyUpper raw)) now) := by
  constructor
  · simp only [handle_join_room, normalize_idem]
  · intro now
    simp only [handle_make_guess, normalize_idem]

/-! ### Claim C8: every room mutation preserves the room invariant -/

theorem AllRoomsInv_dset {d : List (RoomCode × Room)} {k : RoomCode} {v : Room}
    (hall : AllRoomsInv d) (hv : RoomInv v) : AllRoomsInv (dset d k v) := by
  intro e he
  rcases mem_dset he with h | h
  · exact hall e h
  · rw [h]
    exact hv

theorem word_bank_toList_len : ∀ w ∈ WORD_BANK, w.toList.length = WORD_LENGTH := by
  decide

theorem RoomInv_of_dlookup {rooms : List (RoomCode × Room)} {k : RoomCode}
    {room : Room} (hall : AllRoomsInv rooms) (hl : dlookup rooms k = some room) :
    RoomInv room := by
  simpa using hall _ (dlookup_mem hl)

theorem RoomInv_of_gpr {rooms : List (RoomCode × Room)} {cid : ClientId}
    {code : RoomCode} {room : Room} (hall : AllRoomsInv rooms)
    (hf : get_player_room rooms cid = some (code, room)) : RoomInv room := by
  simpa using hall _ (get_player_room_mem hf)

theorem RoomInv_set_state {room : Room} (h : RoomInv room) (s : RoomState) :
    RoomInv { room with state := s } := by
  obtain ⟨h1, h2, h3⟩ := h
  exact ⟨h1, h2, h3⟩

theorem check_game_end_preserves (st : ServerState) (code : RoomCode)
    (hall : AllRoomsInv st.rooms) :
    AllRoomsInv (check_game_end st code).1.rooms := by
  cases hl : dlookup st.rooms code with
  | none =>
    simp only [check_game_end, hl]
    exact hall
  | some room =>
    by_cases hplay : room.state = RoomState.playing
    · by_cases hfin : all_finished room = true
      · rw [check_game_end_state_when_finished st code room hl hplay hfin]
        exact AllRoomsInv_dset hall (RoomInv_set_state (RoomInv_of_dlookup hall hl) _)
      · have hfin' : all_finished room = false := by
          cases hx : all_finished room
          · rfl
          · exact absurd hx hfin
        rw [check_game_end_noop_when_unfinished st code room hl hplay hfin']
        exact hall
    · simp only [check_game_end, hl, hplay]
      simp only [ne_eq, hplay, not_false_eq_true, if_true]
      exact hall

theorem timer_game_preserves (st : ServerState) (code : RoomCode) (now : Int)
    (hall : AllRoomsInv st.rooms) :
    AllRoomsInv (timer_game st code now).1.rooms := by
  cases hl : dlookup st.rooms code with
  | none =>
    simp only [timer_game, hl]
    exact hall
  | some room =>
    by_cases hplay : room.state = RoomState.playing
    · have hred : timer_game st code now =
          check_game_end
            { st with
                rooms := dset st.rooms code
                  (room.players.foldl (timeout_player now) room),
                timers := fupd st.timers code false } code := by
        simp [timer_game, hl, hplay]
      rw [hred]
      apply check_game_end_preserves
      show AllRoomsInv (dset st.rooms code (room.players.foldl (timeout_player now) room))
      apply AllRoomsInv_dset hall
      obtain ⟨h1, hmaps, hword⟩ := RoomInv_of_dlookup hall hl
      have hfields := foldl_timeout_fields now room.players room
      refine ⟨?_, ?_, ?_⟩
      · rw [hfields.1]
        exact h1
      · intro pid hpid
        rw [hfields.1] at hpid
        obtain ⟨hg, hf, hr⟩ := hmaps pid hpid
        refine ⟨?_, ?_, ?_⟩
        · rw [hfields.2.2.2.2 pid]
          exact hg
        · by_cases hnone : (room.finish_times pid).join = none
          · rw [(foldl_timeout_unfinished now room.players room pid hpid hnone).1]
            rfl
          · rw [(foldl_timeout_done now room.players room pid hnone).1]
            exact hf
        · by_cases hnone : (room.finish_times pid).join = none
          · rw [(foldl_timeout_unfinished now room.players room pid hpid hnone).2]
            rfl
          · rw [(foldl_timeout_done now room.players room pid hnone).2]
            exact hr
      · rw [hfields.2.1]
        exact hword
    · simp only [timer_game, hl]
      simp only [ne_eq, hplay, not_false_eq_true, if_true]
      exact hall

theorem create_room_preserves (st : ServerState) (cid : ClientId)
    (code : RoomCode) (word : String) (hall : AllRoomsInv st.rooms)
    (hw : word ∈ WORD_BANK) :
    AllRoomsInv (handle_create_room st cid code word).1.rooms := by
  simp only [handle_create_room]
  apply AllRoomsInv_dset hall
  refine ⟨Or.inl rfl, ?_, ?_⟩
  · intro pid hpid
    have hpc : pid = cid := by simpa using hpid
    subst hpc
    refine ⟨?_, ?_, ?_⟩ <;> simp
  · simp only [pyUpper, List.length_map]
    exact word_bank_toList_len word hw

theorem join_room_preserves (st : ServerState) (cid : ClientId) (raw : List Char)
    (hall : AllRoomsInv st.rooms) :
    AllRoomsInv (handle_join_room st cid raw).1.rooms := by
  cases hl : dlookup st.rooms (pyStrip (pyUpper raw)) with
  | none =>
    simp only [handle_join_room, hl]
    exact hall
  | some room =>
    by_cases h2 : 2 ≤ room.players.length
    · simp only [handle_join_room, hl, if_pos h2]
      exact hall
    · by_cases hs : room.state = RoomState.waiting
      · simp only [handle_join_room, hl, if_neg h2, hs, ne_eq, not_true_eq_false,
          if_false]
        apply AllRoomsInv_dset hall
        obtain ⟨h1, hmaps, hword⟩ := RoomInv_of_dlookup hall hl
        refine ⟨?_, ?_, hword⟩
        · right
          simp only [List.length_append, List.length_cons, List.length_nil]
          omega
        · intro pid hpid
          rcases List.mem_append.mp hpid with hmem | hmem
          · by_cases hpc : pid = cid
            · subst hpc
              refine ⟨?_, ?_, ?_⟩ <;> simp [fupd]
            · obtain ⟨hg, hf, hr⟩ := hmaps pid hmem
              refine ⟨?_, ?_, ?_⟩ <;> simp only [fupd, if_neg hpc] <;> assumption
          · have hpc : pid = cid := by simpa using hmem
            subst hpc
            refine ⟨?_, ?_, ?_⟩ <;> simp [fupd]
      · simp only [handle_join_room, hl, if_neg h2]
        simp only [ne_eq, hs, not_false_eq_true, if_true]
        exact hall

theorem start_game_preserves (st : ServerState) (cid : ClientId) (now : Int)
    (hall : AllRoomsInv st.rooms) :
    AllRoomsInv (handle_start_game st cid now).1.rooms := by
  cases hf : get_player_room st.rooms cid with
  | none =>
    simp only [handle_start_game, hf]
    exact hall
  | some pr =>
    obtain ⟨code, room⟩ := pr
    by_cases hs : room.state = RoomState.ready
    · simp only [handle_start_game, hf, hs, ne_eq, not_true_eq_false, if_false]
      apply AllRoomsInv_dset hall
      obtain ⟨h1, hmaps, hword⟩ := RoomInv_of_gpr hall hf
      refine ⟨h1, ?_, hword⟩
      intro pid hpid
      refine ⟨?_, ?_, ?_⟩ <;> simp [hpid]
    · simp only [handle_start_game, hf]
      simp only [ne_eq, hs, not_false_eq_true, if_true]
      exact hall

theorem rematch_preserves (st : ServerState) (cid : ClientId) (new_word : String)
    (hall : AllRoomsInv st.rooms) (hw : new_word ∈ WORD_BANK) :
    AllRoomsInv (handle_rematch st cid new_word).1.rooms := by
  cases hf : get_player_room st.rooms cid with
  | none =>
    simp only [handle_rematch, hf]
    exact hall
  | some pr =>
    obtain ⟨code, room⟩ := pr
    by_cases hs : room.state = RoomState.finished
    · simp only [handle_rematch, hf, hs, ne_eq, not_true_eq_false, if_false]
      apply AllRoomsInv_dset hall
      obtain ⟨h1, hmaps, hword⟩ := RoomInv_of_gpr hall hf
      refine ⟨h1, ?_, ?_⟩
      · intro pid hpid
        refine ⟨?_, ?_, ?_⟩ <;> simp [hpid]
      · simp only [pyUpper, List.length_map]
        exact word_bank_toList_len new_word hw
    · simp only [handle_rematch, hf]
      simp only [ne_eq, hs, not_false_eq_true, if_true]
      exact hall

theorem RoomInv_set_guesses {room : Room} (h : RoomInv room) (cid : ClientId)
    (gs : List (List Char × List Mark)) :
    RoomInv { room with guesses := fupd room.guesses cid (some gs) } := by
  obtain ⟨h1, hm, hw⟩ := h
  refine ⟨h1, ?_, hw⟩
  intro pid hpid
  obtain ⟨hg, hf, hr⟩ := hm pid hpid
  by_cases hpc : pid = cid
  · subst hpc
    exact ⟨by simp [fupd], hf, hr⟩
  · refine ⟨?_, hf, hr⟩
    simp only [fupd, if_neg hpc]
    exact hg

theorem RoomInv_record_finish {room : Room} (h : RoomInv room) (cid : ClientId)
    (t : Option Int) (res : Option PResult) :
    RoomInv { room with
        finish_times := fupd room.finish_times cid (some t),
        results := fupd room.results cid (some res) } := by
  obtain ⟨h1, hm, hw⟩ := h
  refine ⟨h1, ?_, hw⟩
  intro pid hpid
  obtain ⟨hg, hf, hr⟩ := hm pid hpid
  by_cases hpc : pid = cid
  · subst hpc
    exact ⟨hg, by simp [fupd], by simp [fupd]⟩
  · refine ⟨hg, ?_, ?_⟩
    · simp only [fupd, if_neg hpc]
      exact hf
    · simp only [fupd, if_neg hpc]
      exact hr

theorem make_guess_preserves (st : ServerState) (cid : ClientId)
    (raw : List Char) (now : Int) (hall : AllRoomsInv st.rooms) :
    AllRoomsInv (handle_make_guess st cid raw now).1.rooms := by
  cases hf : get_player_room st.rooms cid with
  | none =>
    simp only [handle_make_guess, hf]
    exact hall
  | some pr =>
    obtain ⟨code, room⟩ := pr
    by_cases hplay : room.state = RoomState.playing
    · by_cases hdone : (room.finish_times cid).join = none
      · by_cases hlen : (pyStrip (pyUpper raw)).length = WORD_LENGTH
        · have hinv1 := RoomInv_set_guesses (RoomInv_of_gpr hall hf) cid
            (((room.guesses cid).getD []) ++
              [(pyStrip (pyUpper raw),
                check_wordle_guess (pyStrip (pyUpper raw)) room.word)])
          have g1 : ¬ (room.state ≠ RoomState.playing) := fun hne => hne hplay
          have g2 : ¬ ((room.finish_times cid).join ≠ none) := fun hne => hne hdone
          have g3 : ¬ ((pyStrip (pyUpper raw)).length ≠ WORD_LENGTH) :=
            fun hne => hne hlen
          simp only [handle_make_guess, hf]
          rw [if_neg g1, if_neg g2, if_neg g3]
          split
          · exact check_game_end_preserves _ _
              (AllRoomsInv_dset (AllRoomsInv_dset hall hinv1)
                (RoomInv_record_finish hinv1 cid _ _))
          · split
            · exact check_game_end_preserves _ _
                (AllRoomsInv_dset (AllRoomsInv_dset hall hinv1)
                  (RoomInv_record_finish hinv1 cid _ _))
            · exact AllRoomsInv_dset hall hinv1
        · have g1 : ¬ (room.state ≠ RoomState.playing) := fun hne => hne hplay
          have g2 : ¬ ((room.finish_times cid).join ≠ none) := fun hne => hne hdone
          simp only [handle_make_guess, hf]
          rw [if_neg g1, if_neg g2, if_pos hlen]
          exact hall
      · have g1 : ¬ (room.state ≠ RoomState.playing) := fun hne => hne hplay
        simp only [handle_make_guess, hf]
        rw [if_neg g1, if_pos hdone]
        exact hall
    · simp only [handle_make_guess, hf]
      rw [if_pos hplay]
      exact hall

/-- Claim C8: every operation that creates or mutates a room preserves the
room invariant (1 or 2 players; `guesses`, `finish_times`, `results` hold an
entry for every player in `players`; the secret word has the configured
length): `create_room`, `join_room`, `start_game`, `make_guess`, `rematch`,
and the timer-expiry body.  Words drawn by `create_room`/`rematch` come from
the word bank. -/
theorem C8_operations_preserve_invariant :
    (∀ (st : ServerState) (cid : ClientId) (code : RoomCode) (word : String),
      AllRoomsInv st.rooms → word ∈ WORD_BANK →
        AllRoomsInv (handle_create_room st cid code word).1.rooms)
    ∧ (∀ (st : ServerState) (cid : ClientId) (raw : List Char),
      AllRoomsInv st.rooms → AllRoomsInv (handle_join_room st cid raw).1.rooms)
    ∧ (∀ (st : ServerState) (cid : ClientId) (now : Int),
      AllRoomsInv st.rooms → AllRoomsInv (handle_start_game st cid now).1.rooms)
    ∧ (∀ (st : ServerState) (cid : ClientId) (raw : List Char) (now : Int),
      AllRoomsInv st.rooms → AllRoomsInv (handle_make_guess st cid raw now).1.rooms)
    ∧ (∀ (st : ServerState) (cid : ClientId) (new_word : String),
      AllRoomsInv st.rooms → new_word ∈ WORD_BANK →
        AllRoomsInv (handle_rematch st cid new_word).1.rooms)
    ∧ (∀ (st : ServerState) (code : RoomCode) (now : Int),
      AllRoomsInv st.rooms → AllRoomsInv (timer_game st code now).1.rooms) :=
  ⟨fun st cid code word hall hw => create_room_preserves st cid code word hall hw,
   fun st cid raw hall => join_room_preserves st cid raw hall,
   fun st cid now hall => start_game_preserves st cid now hall,
   fun st cid raw now hall => make_guess_preserves st cid raw now hall,
   fun st cid w hall hw => rematch_preserves st cid w hall hw,
   fun st code now hall => timer_game_preserves st code now hall⟩

/-- Concrete instantiation of C8: creating a room in an empty registry
yields an invariant-satisfying registry. -/
theorem C8_witness :
    AllRoomsInv (handle_create_room
      { clients := fun _ => none, rooms := [], timers := fun _ => false }
      1 "ABCDE".toList "REACT").1.rooms :=
  C8_operations_preserve_invariant.1
    { clients := fun _ => none, rooms := [], timers := fun _ => false }
    1 "ABCDE".toList "REACT" (fun e he => absurd he (List.not_mem_nil e))
    (by decide)

end Vocly
